import Mathlib

/-!
Verification development for the go-agent binding-accessor engine and the
add-security-headers rule callback.

The binding-accessor implementation itself is not part of the provided
sources (only its test suite is), so the engine below is modelled from the
specification: its grammar (§4.1), compiler (§4.2), evaluator (§4.3),
transform library (§4.4) and error taxonomy (§7).  Host (Go) runtime values
are embedded as a first-order dynamic-value type; host callables are
restricted to the first-order behaviours exercised by the engine's contract
(returning a constant, returning an argument, or signalling an error).

The add-security-headers callback is translated directly from
`internal/rule/callback/add-security-headers.go`.
-/

namespace BindingAccessor

/-- Modelled from the spec: a coarse universe of host types, enough to
express the dynamic type checks of §4.3 (map key assignability, callable
parameter matching).  `tIface` is the untyped/dynamic (interface) type. -/
inductive Ty where
  | tInt
  | tString
  | tBool
  | tSeq
  | tMap
  | tPtr
  | tStruct
  | tFunc
  | tIface
deriving DecidableEq, Repr

/-- Modelled from the spec: bracket-index literals (§4.1 grammar:
`index := '[' (int-literal | string-literal) ']'`). -/
inductive Lit where
  | int (n : Nat)
  | str (s : String)
deriving DecidableEq, Repr

/-- Modelled from the spec: the dynamic context value (§3, §6).  Sequences,
keyed containers (with a declared key type), nullable pointer indirection,
structured values with exported/unexported data members and value- vs
reference-receiver zero-argument behaviours, and callables.  A behaviour
entry is `(name, firstReturn, optional trailing error)`; a callable either
returns a constant (`vFuncConst`, with an optional trailing error) or
returns one of its converted arguments (`vFuncArg`). -/
inductive Value where
  | vNil
  | vInt (n : Int)
  | vStr (s : String)
  | vBool (b : Bool)
  | vSeq (elems : List Value)
  | vMap (keyTy : Ty) (entries : List (Value × Value))
  | vPtr (target : Option Value)
  | vStruct (fields : List (String × Bool × Value))
            (valMeths : List (String × Value × Option String))
            (ptrMeths : List (String × Value × Option String))
  | vFuncConst (params : List Ty) (ret : Value) (err : Option String)
  | vFuncArg (params : List Ty) (i : Nat)
deriving BEq, Repr

/-- Modelled from the spec: expression roots (§4.1 grammar:
`root := '#' | string-literal | 'nil'`). -/
inductive Root where
  | ctx
  | strLit (s : String)
  | nilLit
deriving DecidableEq, Repr

/-- Modelled from the spec: the closed transform registry (§4.2, §6):
`{flat_values, flat_keys}`. -/
inductive Transform where
  | flatValues
  | flatKeys
deriving DecidableEq, Repr

/-- Modelled from the spec: one chained operation of the AST (§3): dot access
`Field(name)`, bracket access `Index(literal)`, invocation `Call(args)` whose
arguments are themselves full sub-expressions (root, chain, optional
transform). -/
inductive Step where
  | field (name : String)
  | index (lit : Lit)
  | call (args : List (Root × List Step × Option Transform))
deriving Repr

/-- Modelled from the spec: the compiled Program (§3): a root, an ordered
list of resolved steps and an optional trailing transform, immutable once
built. -/
abbrev Program := Root × List Step × Option Transform

/-- Modelled from the spec: the compile-error taxonomy (§4.1, §7): empty
expression, unexpected end of input, unmatched bracket, empty/invalid
bracket contents, unterminated string literal, invalid pipe target, unknown
transform name, generic syntax error. -/
inductive CompileError where
  | emptyExpression
  | unexpectedEnd
  | unmatchedBracket
  | invalidBracketContents
  | unterminatedStringLiteral
  | invalidPipe
  | unknownTransform (name : String)
  | synError
deriving DecidableEq, Repr

/-- Modelled from the spec: the execution-error taxonomy (§7): the
distinguished max-depth sentinel, distinct from ordinary execution
errors. -/
inductive EvalError where
  | maxDepthExceeded
  | execError (msg : String)
deriving DecidableEq, Repr

/-- Modelled from the spec: the distinguished `MaxExecutionDepth` sentinel
error (§6), part of the public surface. -/
def ErrMaxExecutionDepth : EvalError := .maxDepthExceeded

/-- Modelled from the spec: the fixed maximum traversal depth (§4.3, §9
open question): a chain of ten index/field steps succeeds, eleven fails. -/
def maxExecutionDepth : Nat := 10

/-! ### Lexer/Parser (modelled from the spec, §4.1) -/

def isIdentChar (c : Char) : Bool := c.isAlphanum || c == '_'

/-- Longest nonempty identifier prefix of the input, with the rest. -/
def identOf (cs : List Char) : Option (String × List Char) :=
  match cs.span isIdentChar with
  | ([], _) => none
  | (pre, rest) => some (String.mk pre, rest)

def digitsToNat (ds : List Char) : Nat :=
  ds.foldl (fun a c => a * 10 + (c.toNat - 48)) 0

/-- Longest nonempty digit-run prefix of the input as an integer literal. -/
def digitsOf (cs : List Char) : Option (Nat × List Char) :=
  match cs.span Char.isDigit with
  | ([], _) => none
  | (ds, rest) => some (digitsToNat ds, rest)

/-- Scans a quoted string literal (opening quote already consumed): yields
its contents and the rest, or `none` when the closing quote is missing. -/
def strLitOf (cs : List Char) : Option (String × List Char) :=
  match cs.span (fun c => !(c == '\'')) with
  | (_, []) => none
  | (pre, _ :: rest) => some (String.mk pre, rest)

def skipSpaces (cs : List Char) : List Char := cs.dropWhile (fun c => c == ' ')

/-- Modelled from the spec: the fixed transform registry (§4.2). -/
def resolveTransform (name : String) : Option Transform :=
  if name = "flat_values" then some .flatValues
  else if name = "flat_keys" then some .flatKeys
  else none

def parseRoot (cs : List Char) : Except CompileError (Root × List Char) :=
  match cs with
  | [] => .error .unexpectedEnd
  | '#' :: r => .ok (.ctx, r)
  | '\'' :: r =>
    match strLitOf r with
    | none => .error .unterminatedStringLiteral
    | some (s, r') => .ok (.strLit s, r')
  | 'n' :: 'i' :: 'l' :: r => .ok (.nilLit, r)
  | _ => .error .synError

/-- Parses `'[' (int-literal | string-literal) ']'` (opening bracket already
consumed). -/
def parseBracket (cs : List Char) : Except CompileError (Lit × List Char) :=
  match cs with
  | '\'' :: r =>
    match strLitOf r with
    | none => .error .unterminatedStringLiteral
    | some (s, r') =>
      match r' with
      | ']' :: rest => .ok (.str s, rest)
      | _ => .error .unmatchedBracket
  | _ =>
    match digitsOf cs with
    | none => .error .invalidBracketContents
    | some (n, r) =>
      match r with
      | ']' :: rest => .ok (.int n, rest)
      | _ => .error .unmatchedBracket

mutual

/-- Modelled from the spec: `expr := root chain? pipe?` (§4.1).  The fuel
argument only bounds the recursion; any fuel at least the input length
suffices. -/
def parseExpr (fuel : Nat) (cs : List Char) :
    Except CompileError ((Root × List Step × Option Transform) × List Char) :=
  match fuel with
  | 0 => .error .synError
  | fuel + 1 => do
    let (root, cs) ← parseRoot cs
    let (steps, cs) ← parseChain fuel cs
    match skipSpaces cs with
    | '|' :: r =>
      match identOf (skipSpaces r) with
      | none => .error .invalidPipe
      | some (name, rest) =>
        match resolveTransform name with
        | none => .error (.unknownTransform name)
        | some t => .ok ((root, steps, some t), rest)
    | _ => .ok ((root, steps, none), cs)

/-- Modelled from the spec: `chain := (field | index | call)*` (§4.1). -/
def parseChain (fuel : Nat) (cs : List Char) :
    Except CompileError (List Step × List Char) :=
  match fuel with
  | 0 => .error .synError
  | fuel + 1 =>
    match cs with
    | '.' :: r =>
      match identOf r with
      | none => .error .synError
      | some (name, rest) => do
        let (steps, cs') ← parseChain fuel rest
        .ok (.field name :: steps, cs')
    | '[' :: r => do
      let (lit, rest) ← parseBracket r
      let (steps, cs') ← parseChain fuel rest
      .ok (.index lit :: steps, cs')
    | '(' :: r => do
      let (args, rest) ← parseArgs fuel (skipSpaces r)
      let (steps, cs') ← parseChain fuel rest
      .ok (.call args :: steps, cs')
    | _ => .ok ([], cs)

/-- Parses a call's argument list, positioned at either `')'` or the first
argument (opening parenthesis already consumed). -/
def parseArgs (fuel : Nat) (cs : List Char) :
    Except CompileError (List (Root × List Step × Option Transform) × List Char) :=
  match fuel with
  | 0 => .error .synError
  | fuel + 1 =>
    match cs with
    | ')' :: r => .ok ([], r)
    | _ => do
      let (e, cs') ← parseExpr fuel cs
      let (rest, cs'') ← parseArgsRest fuel (skipSpaces cs')
      .ok (e :: rest, cs'')

/-- Parses the remainder of an argument list after one argument: either the
closing parenthesis or a comma followed by more arguments. -/
def parseArgsRest (fuel : Nat) (cs : List Char) :
    Except CompileError (List (Root × List Step × Option Transform) × List Char) :=
  match fuel with
  | 0 => .error .synError
  | fuel + 1 =>
    match cs with
    | ')' :: r => .ok ([], r)
    | ',' :: r => do
      let (e, cs') ← parseExpr fuel (skipSpaces r)
      let (rest, cs'') ← parseArgsRest fuel (skipSpaces cs')
      .ok (e :: rest, cs'')
    | [] => .error .unexpectedEnd
    | _ => .error .synError

end

/-- Modelled from the spec: `compile(expression) -> Program | CompileError`
(§6): lexing/parsing (§4.1) followed by the compiler's transform-name
resolution against the fixed registry (§4.2); a compile error is always
reported before a Program exists. -/
def compile (s : String) : Except CompileError Program :=
  if s = "" then .error .emptyExpression
  else do
    let (e, rest) ← parseExpr (2 * s.length + 4) s.toList
    match skipSpaces rest with
    | [] => .ok e
    | _ => .error .synError

/-! ### Dynamic-value introspection helpers (modelled from the spec, §4.3, §9) -/

/-- The coarse dynamic type of a value; `vNil` is the untyped absent value. -/
def typeOf : Value → Ty
  | .vNil => .tIface
  | .vInt _ => .tInt
  | .vStr _ => .tString
  | .vBool _ => .tBool
  | .vSeq _ => .tSeq
  | .vMap _ _ => .tMap
  | .vPtr _ => .tPtr
  | .vStruct _ _ _ => .tStruct
  | .vFuncConst _ _ _ => .tFunc
  | .vFuncArg _ _ => .tFunc

/-- Modelled from the spec (§4.3 Call step): an untyped/dynamic parameter
accepts anything; a concrete-typed parameter must match exactly. -/
def assignableTo (v : Value) (p : Ty) : Bool :=
  p == Ty.tIface || typeOf v == p

def litTy : Lit → Ty
  | .int _ => .tInt
  | .str _ => .tString

def litValue : Lit → Value
  | .int n => .vInt (Int.ofNat n)
  | .str s => .vStr s

/-- Modelled from the spec (§4.3): transparently unwraps pointer/interface
indirection, failing on a nil target, and remembering whether the value was
reached through a reference form (which widens the applicable behaviour
set). -/
def unwrap : Value → Bool → Except EvalError (Value × Bool)
  | .vPtr none, _ => .error (.execError "nil pointer dereference")
  | .vPtr (some v), _ => unwrap v true
  | v, isRef => .ok (v, isRef)

def lookupField (fields : List (String × Bool × Value)) (name : String) :
    Option (Bool × Value) :=
  match fields with
  | [] => none
  | (n, ex, v) :: rest =>
    if n = name then some (ex, v) else lookupField rest name

def lookupMeth (ms : List (String × Value × Option String)) (name : String) :
    Option (Value × Option String) :=
  match ms with
  | [] => none
  | (n, ret, err) :: rest =>
    if n = name then some (ret, err) else lookupMeth rest name

def mapLookup (entries : List (Value × Value)) (k : Value) : Option Value :=
  match entries with
  | [] => none
  | (k', v) :: rest => if k' == k then some v else mapLookup rest k

/-- Modelled from the spec: the Field step (§4.3 (a)-(d)): unwrap
indirection; exact-name data-member lookup with unexported members
inaccessible; otherwise zero-argument behaviour lookup respecting value- vs
reference-receiver visibility, propagating a trailing error; otherwise an
execution error. -/
def evalField (cur : Value) (name : String) : Except EvalError Value := do
  let (core, isRef) ← unwrap cur false
  match core with
  | .vStruct fields vms pms =>
    match lookupField fields name with
    | some (exported, v) =>
      if exported then .ok v else .error (.execError "unexported field")
    | none =>
      match lookupMeth vms name with
      | some (ret, none) => .ok ret
      | some (_, some msg) => .error (.execError msg)
      | none =>
        match (if isRef then lookupMeth pms name else none) with
        | some (ret, none) => .ok ret
        | some (_, some msg) => .error (.execError msg)
        | none => .error (.execError ("no field nor method " ++ name))
  | _ => .error (.execError "field access on non-struct value")

/-- Modelled from the spec: the Index step (§4.3): sequences require an
in-range non-negative integer literal; keyed containers require a literal
assignable to the declared key type, a well-typed absent key yielding
`vNil` without error; any other value kind is an execution error. -/
def evalIndex (cur : Value) (lit : Lit) : Except EvalError Value := do
  let (core, _) ← unwrap cur false
  match core with
  | .vSeq elems =>
    match lit with
    | .int n =>
      match elems.get? n with
      | some v => .ok v
      | none => .error (.execError "sequence index out of range")
    | .str _ => .error (.execError "invalid sequence index")
  | .vMap keyTy entries =>
    if keyTy == Ty.tIface || litTy lit == keyTy then
      match mapLookup entries (litValue lit) with
      | some v => .ok v
      | none => .ok .vNil
    else .error (.execError "wrong map key type")
  | _ => .error (.execError "index of non-indexable value")

def argsMatch (params : List Ty) (args : List Value) : Bool :=
  params.length == args.length &&
    (params.zip args).all (fun pv => assignableTo pv.2 pv.1)

/-- Modelled from the spec: the Call step's invocation (§4.3): the running
value must be callable; evaluated arguments are converted to the declared
parameter types, any type or count mismatch being an execution error; a
trailing error-typed return becomes the evaluation's error. -/
def evalCall (cur : Value) (args : List Value) : Except EvalError Value := do
  let (core, _) ← unwrap cur false
  match core with
  | .vFuncConst params ret err =>
    if argsMatch params args then
      match err with
      | some msg => .error (.execError msg)
      | none => .ok ret
    else .error (.execError "unexpected argument type or count")
  | .vFuncArg params i =>
    if argsMatch params args then
      match args.get? i with
      | some v => .ok v
      | none => .error (.execError "host function error")
    else .error (.execError "unexpected argument type or count")
  | _ => .error (.execError "call of non-callable value")

/-- Modelled from the spec: the Root step (§4.3) seeds the running value;
string and nil literal roots ignore the context (§4.1). -/
def evalRoot (ctx : Value) : Root → Value
  | .ctx => ctx
  | .strLit s => .vStr s
  | .nilLit => .vNil

/-! ### Transform library (modelled from the spec, §4.4) -/

/-- Applies a collecting function to every element of a list and
concatenates the results, propagating the first failure. -/
def joinMapM (f : Value → Except EvalError (List Value)) :
    List Value → Except EvalError (List Value)
  | [] => .ok []
  | v :: rest => do
    let a ← f v
    let b ← joinMapM f rest
    .ok (a ++ b)

/-- One level of the `flat_values` descent (§4.4), with `recur` collecting
one nesting level deeper: descend through indirection, sequences, keyed
containers and exported data members; `nil` entries contribute nothing;
any other value is terminal. -/
def flatValuesLevel (recur : Value → Except EvalError (List Value)) :
    Value → Except EvalError (List Value)
  | .vNil => .ok []
  | .vPtr none => .ok []
  | .vPtr (some w) => recur w
  | .vSeq elems => joinMapM recur elems
  | .vMap _ entries => joinMapM recur (entries.map Prod.snd)
  | .vStruct fields _ _ =>
    joinMapM recur ((fields.filter (fun f => f.2.1)).map (fun f => f.2.2))
  | w => .ok [w]

/-- Modelled from the spec: `flat_values` (§4.4): recursive descent
collecting every terminal value, bounded by the reused depth guard and
failing with the `MaxExecutionDepth` sentinel on exceeding it. -/
def flatValues : Nat → Value → Except EvalError (List Value)
  | 0, _ => .error ErrMaxExecutionDepth
  | fuel + 1, v => flatValuesLevel (flatValues fuel) v

/-- One level of the `flat_keys` descent (§4.4): same traversal as
`flat_values` but collecting the keys/member names at each keyed-container
or structured level while still recursing into the values; a composite key
is emitted as a terminal result, not recursed into; terminal values
contribute nothing. -/
def flatKeysLevel (recur : Value → Except EvalError (List Value)) :
    Value → Except EvalError (List Value)
  | .vPtr (some w) => recur w
  | .vSeq elems => joinMapM recur elems
  | .vMap _ entries => do
    let nested ← joinMapM recur (entries.map Prod.snd)
    .ok (entries.map Prod.fst ++ nested)
  | .vStruct fields _ _ => do
    let nested ← joinMapM recur ((fields.filter (fun f => f.2.1)).map (fun f => f.2.2))
    .ok ((fields.filter (fun f => f.2.1)).map (fun f => Value.vStr f.1) ++ nested)
  | _ => .ok []

/-- Modelled from the spec: `flat_keys` (§4.4), bounded by the reused depth
guard. -/
def flatKeys : Nat → Value → Except EvalError (List Value)
  | 0, _ => .error ErrMaxExecutionDepth
  | fuel + 1, v => flatKeysLevel (flatKeys fuel) v

def runTransform : Transform → Value → Except EvalError Value
  | .flatValues, v => do
    let l ← flatValues maxExecutionDepth v
    .ok (.vSeq l)
  | .flatKeys, v => do
    let l ← flatKeys maxExecutionDepth v
    .ok (.vSeq l)

/-! ### Evaluator (modelled from the spec, §4.3)

Evaluation is layered by call-argument nesting: `evalStepsWith` threads the
value-and-depth state through one step chain, delegating the evaluation of
call-argument sub-expressions to the function `ev` closed over the original
context value; `evalAtFuel` ties the layers together.  Because every call
step's depth-guard check precedes its argument evaluation, nesting is
bounded by the depth guard and `maxExecutionDepth + 2` levels never
exhaust. -/

/-- Modelled from the spec: argument sub-expressions are evaluated in
order, recursively (by `ev`, which evaluates against the original context
value, §4.3 Call step), threading the depth counter. -/
def evalArgsWith (ev : Program → Nat → Except EvalError (Value × Nat)) :
    List Program → Nat → Except EvalError (List Value × Nat)
  | [], d => .ok ([], d)
  | a :: rest, d => do
    let (v, d') ← ev a d
    let (vs, d'') ← evalArgsWith ev rest d'
    .ok (v :: vs, d'')

/-- Modelled from the spec: the step chain (§4.3): every Field/Index/Call
step increments the per-evaluation depth counter and aborts with the
distinguished `MaxExecutionDepth` sentinel beyond the fixed maximum; the
running value `cur` never feeds argument evaluation. -/
def evalStepsWith (ev : Program → Nat → Except EvalError (Value × Nat)) :
    List Step → Value → Nat → Except EvalError (Value × Nat)
  | [], cur, d => .ok (cur, d)
  | .field name :: rest, cur, d =>
    if maxExecutionDepth < d + 1 then .error ErrMaxExecutionDepth
    else do
      let v ← evalField cur name
      evalStepsWith ev rest v (d + 1)
  | .index lit :: rest, cur, d =>
    if maxExecutionDepth < d + 1 then .error ErrMaxExecutionDepth
    else do
      let v ← evalIndex cur lit
      evalStepsWith ev rest v (d + 1)
  | .call args :: rest, cur, d =>
    if maxExecutionDepth < d + 1 then .error ErrMaxExecutionDepth
    else do
      let (vals, d') ← evalArgsWith ev args (d + 1)
      let v ← evalCall cur vals
      evalStepsWith ev rest v d'

/-- Modelled from the spec: evaluation of one (sub-)expression: seed the
running value from the root, run the step chain, then the optional
trailing transform (§4.3). -/
def evalExprWith (ev : Program → Nat → Except EvalError (Value × Nat))
    (ctx : Value) : Program → Nat → Except EvalError (Value × Nat)
  | (root, steps, tf), d => do
    let (v, d') ← evalStepsWith ev steps (evalRoot ctx root) d
    match tf with
    | none => .ok (v, d')
    | some t => do
      let w ← runTransform t v
      .ok (w, d')

/-- Evaluation with an explicit bound on call-argument nesting; each level
passes the same original context value to the next. -/
def evalAtFuel : Nat → Value → Program → Nat → Except EvalError (Value × Nat)
  | 0, _, _, _ => .error (.execError "call nesting exhausted")
  | fuel + 1, ctx, e, d => evalExprWith (evalAtFuel fuel ctx) ctx e d

/-- Modelled from the spec: `evaluate(program, contextValue) -> (value,
error)` (§4.3, §6); the depth counter starts fresh at each evaluation. -/
def evaluate (p : Program) (ctx : Value) : Except EvalError Value :=
  match evalAtFuel (maxExecutionDepth + 2) ctx p 0 with
  | .ok (v, _) => .ok v
  | .error e => .error e

end BindingAccessor

namespace Callback

/-! ### add-security-headers callback, from
`internal/rule/callback/add-security-headers.go` -/

/-- `net/http`'s `Header`: a map from canonicalized keys to value lists,
embedded as an association list with distinct keys. -/
abbrev Header := List (String × List String)

/-- Characters allowed in a MIME header token, per
`net/textproto.validHeaderFieldByte` (letters, digits and
the specials of RFC 7230 tokens, listed by code point). -/
def isTokenChar (c : Char) : Bool :=
  c.isAlpha || c.isDigit ||
    [33, 35, 36, 37, 38, 39, 42, 43, 45, 46, 94, 95, 96, 124, 126].contains c.toNat

/-- One step of `net/textproto.CanonicalMIMEHeaderKey`'s loop: uppercase a
letter at the start or after a hyphen, lowercase it otherwise. -/
def canonicalStep (acc : List Char × Bool) (c : Char) : List Char × Bool :=
  let c' := if acc.2 then c.toUpper else c.toLower
  (acc.1 ++ [c'], c == '-')

/-- `net/textproto.CanonicalMIMEHeaderKey`: canonicalize a valid token key,
return an invalid key unchanged. -/
def canonicalMIMEHeaderKey (s : String) : String :=
  if s.toList.all isTokenChar then
    String.mk (s.toList.foldl canonicalStep ([], true)).1
  else s

/-- Raw map assignment `m[k] = vs`: replace the binding of `k`, or append
a new one. -/
def headerSetK (h : Header) (k : String) (vs : List String) : Header :=
  match h with
  | [] => [(k, vs)]
  | (k', vs') :: rest =>
    if k' = k then (k, vs) :: rest else (k', vs') :: headerSetK rest k vs

/-- `http.Header.Set`: canonicalizes the key and replaces its values with
the single given value. -/
def headerSet (h : Header) (k v : String) : Header :=
  headerSetK h (canonicalMIMEHeaderKey k) [v]

/-- Map lookup `m[k]`. -/
def headerLookup (h : Header) (k : String) : Option (List String) :=
  match h with
  | [] => none
  | (k', vs) :: rest => if k' = k then some vs else headerLookup rest k

/-- One element of the callback's configuration data: either a value whose
dynamic type is not `[]string` (the type assertion fails), or a `[]string`
with its elements. -/
inductive CfgElem where
  | notStringSlice
  | strs (l : List String)
deriving DecidableEq, Repr

/-- The callback's configuration `cfg.Data()`: either a value whose dynamic
type is not `[]interface{}`, or such a list. -/
inductive CfgData where
  | notList
  | list (l : List CfgElem)
deriving DecidableEq, Repr

/-- The loop body of `NewAddSecurityHeadersCallback`: each element must be
a `[]string` of exactly two values, `headers.Set(kv[0], kv[1])` otherwise
failing at the first offending element. -/
def buildHeaders (h : Header) : List CfgElem → Except String Header
  | [] => .ok h
  | .notStringSlice :: _ =>
    .error "unexpected number of values: header key and values are expected"
  | .strs kv :: rest =>
    match kv with
    | [k, v] => buildHeaders (headerSet h k v) rest
    | _ => .error "unexpected number of values: header key and values are expected"

/-- `NewAddSecurityHeadersCallback` from `add-security-headers.go`: checks
the configuration data is a `[]interface{}` of two-element `[]string`
pairs, builds an `http.Header` from them via `Set`, rejects an empty
header set, and otherwise returns the prolog callback
`newAddHeadersPrologCallback(headers)`.  An `.ok headers` result stands
for the pair (non-nil prolog callback over `headers`, nil error); an
`.error` result stands for the pair (nil callback, non-nil error). -/
def NewAddSecurityHeadersCallback (cfg : CfgData) : Except String Header :=
  match cfg with
  | .notList => .error "unexpected callback data type"
  | .list data => do
    let headers ← buildHeaders [] data
    if headers.length = 0 then .error "unexpected empty list of headers to add"
    else .ok headers

/-- `newAddHeadersPrologCallback(headers)` applied to a protection context
whose response writer currently has the header map `responseHeaders`: the
prolog writes `responseHeaders[k] = v` for every configured pair and
returns a nil epilog callback and a nil error.  The result triple is (new
response header map, epilog, error). -/
def newAddHeadersPrologCallback (headers : Header) (responseHeaders : Header) :
    Header × Option Unit × Option String :=
  (headers.foldl (fun r kv => headerSetK r kv.1 kv.2) responseHeaders, none, none)

/-- A configuration element that trips one of the callback's dynamic
checks: not a `[]string`, or not exactly two values. -/
def badCfgElem : CfgElem → Prop
  | .notStringSlice => True
  | .strs l => l.length ≠ 2

/-- The error condition of `NewAddSecurityHeadersCallback` as the claim
states it: the data is not a `[]interface{}`, or some element is not a
two-value `[]string`, or the list is empty (the case in which the data
yields an empty header set). -/
def errorConfig : CfgData → Prop
  | .notList => True
  | .list l => (∃ e ∈ l, badCfgElem e) ∨ l = []

end Callback

namespace BindingAccessor

/-! ### Concrete context values mirroring the binding-accessor test suite -/

/-- The `n`-fold nested sequence `[[...[33]...]]` used by the
max-execution-depth tests. -/
def nestedSeq : Nat → Value
  | 0 => .vInt 33
  | n + 1 => .vSeq [nestedSeq n]

/-- An index-chain of `n` `[0]` steps. -/
def idxChain (n : Nat) : List Step := List.replicate n (.index (.int 0))

def idxProgram (n : Nat) : Program := (.ctx, idxChain n, none)

/-- The `n`-fold nested structure `{A: {A: ... 33 ...}}` mirroring the
field-chain max-execution-depth test. -/
def nestedStruct : Nat → Value
  | 0 => .vInt 33
  | n + 1 => .vStruct [("A", true, nestedStruct n)] [] []

/-- A field-chain of `n` `.A` steps. -/
def fieldChain (n : Nat) : List Step := List.replicate n (.field "A")

def fieldProgram (n : Nat) : Program := (.ctx, fieldChain n, none)

/-- The test suite's `contextWithMethods`: no data members,
`MyMethodField1` and `MyMethodField3` defined on the value form,
`MyMethodField2` only on the reference (pointer) form. -/
def cwMethods : Value :=
  .vStruct []
    [("MyMethodField1", .vInt 33, none),
     ("MyMethodField3", .vSeq [.vBool true, .vBool true, .vBool false], none)]
    [("MyMethodField2", .vStr "Sqreen", none)]

/-- Context for `#.A(#.B)`: `A` is the identity on `int`, `B` is `23`. -/
def ctxIdFn : Value :=
  .vStruct [("A", true, .vFuncArg [.tInt] 0), ("B", true, .vInt 23)] [] []

/-- Context for `#.A(#.B)` with an argument type mismatch: `A` expects an
`int` but `B` is a `bool`. -/
def ctxBadArg : Value :=
  .vStruct [("A", true, .vFuncArg [.tInt] 0), ("B", true, .vBool true)] [] []

/-- Context with a zero-parameter `A`, so `#.A(#.B)` is an argument-count
mismatch. -/
def ctxArity : Value :=
  .vStruct [("A", true, .vFuncConst [] (.vInt 1) none), ("B", true, .vInt 23)] [] []

/-- Context whose callable `A` returns a struct with field `B` together
with a non-nil trailing error. -/
def ctxErrFn : Value :=
  .vStruct
    [("A", true, .vFuncConst [] (.vStruct [("B", true, .vInt 7)] [] []) (some "error")),
     ("B", true, .vInt 23)] [] []

/-- The flat-transform test composite: `{A: 33, B: {C: [1, {D: 2},
&{E: "Sqreen"}, {"One": 1, 2: "Two", "Three": [27, 28]}]}}`. -/
def ctxComposite : Value :=
  .vStruct
    [("A", true, .vInt 33),
     ("B", true, .vStruct
       [("C", true, .vSeq
         [.vInt 1,
          .vStruct [("D", true, .vInt 2)] [] [],
          .vPtr (some (.vStruct [("E", true, .vStr "Sqreen")] [] [])),
          .vMap .tIface
            [(.vStr "One", .vInt 1), (.vInt 2, .vStr "Two"),
             (.vStr "Three", .vSeq [.vInt 27, .vInt 28])]])] [] [])] [] []

/-- The flat-values test composite `[{"k1": "hello"}, nil]` with a nil
sequence element. -/
def ctxNilElem : Value :=
  .vSeq [.vMap .tString [(.vStr "k1", .vStr "hello")], .vNil]

/-- The flat-keys test composite `[{new(string): "hello", (*string)(nil):
"hello nil"}, nil]` whose map keys are themselves composite (pointer)
values. -/
def ctxPtrKeys : Value :=
  .vSeq [.vMap .tPtr [(.vPtr (some (.vStr "")), .vStr "hello"),
                      (.vPtr none, .vStr "hello nil")], .vNil]

/-! ### Lemmas about the step chain and the depth guard -/

lemma evalStepsWith_idxChain_ok
    (ev : Program → Nat → Except EvalError (Value × Nat)) :
    ∀ (n k d : Nat), d + n ≤ maxExecutionDepth →
      evalStepsWith ev (idxChain n) (nestedSeq (n + k)) d =
        .ok (nestedSeq k, d + n) := by
  intro n
  induction n with
  | zero =>
    intro k d _
    simp [idxChain, evalStepsWith]
  | succ n ih =>
    intro k d h
    have hk : n + 1 + k = (n + k) + 1 := by omega
    have hchain : idxChain (n + 1) = .index (.int 0) :: idxChain n := by
      simp [idxChain, List.replicate_succ]
    rw [hk, hchain]
    simp only [evalStepsWith]
    rw [if_neg (Nat.not_lt.mpr (by omega : d + 1 ≤ maxExecutionDepth))]
    simp only [nestedSeq, evalIndex, unwrap, Except.bind]
    simpa [Except.bind, Nat.add_right_comm d 1 n] using
      ih k (d + 1) (by omega)

lemma evalStepsWith_idxChain_max
    (ev : Program → Nat → Except EvalError (Value × Nat)) :
    ∀ (n k d : Nat), maxExecutionDepth < d + n → d ≤ maxExecutionDepth →
      evalStepsWith ev (idxChain n) (nestedSeq (n + k)) d =
        .error ErrMaxExecutionDepth := by
  intro n
  induction n with
  | zero => intro k d h h'; omega
  | succ n ih =>
    intro k d h h'
    have hk : n + 1 + k = (n + k) + 1 := by omega
    have hchain : idxChain (n + 1) = .index (.int 0) :: idxChain n := by
      simp [idxChain, List.replicate_succ]
    rw [hk, hchain]
    simp only [evalStepsWith]
    by_cases hd : maxExecutionDepth < d + 1
    · rw [if_pos hd]
    · rw [if_neg hd]
      simp only [nestedSeq, evalIndex, unwrap, Except.bind]
      simpa [Except.bind] using ih k (d + 1) (by omega) (by omega)

lemma evalStepsWith_fieldChain_ok
    (ev : Program → Nat → Except EvalError (Value × Nat)) :
    ∀ (n k d : Nat), d + n ≤ maxExecutionDepth →
      evalStepsWith ev (fieldChain n) (nestedStruct (n + k)) d =
        .ok (nestedStruct k, d + n) := by
  intro n
  induction n with
  | zero =>
    intro k d _
    simp [fieldChain, evalStepsWith]
  | succ n ih =>
    intro k d h
    have hk : n + 1 + k = (n + k) + 1 := by omega
    have hchain : fieldChain (n + 1) = .field "A" :: fieldChain n := by
      simp [fieldChain, List.replicate_succ]
    rw [hk, hchain]
    simp only [evalStepsWith]
    rw [if_neg (Nat.not_lt.mpr (by omega : d + 1 ≤ maxExecutionDepth))]
    simp only [nestedStruct, evalField, unwrap, lookupField, Except.bind]
    simpa [Except.bind, Nat.add_right_comm d 1 n] using
      ih k (d + 1) (by omega)

lemma evalStepsWith_fieldChain_max
    (ev : Program → Nat → Except EvalError (Value × Nat)) :
    ∀ (n k d : Nat), maxExecutionDepth < d + n → d ≤ maxExecutionDepth →
      evalStepsWith ev (fieldChain n) (nestedStruct (n + k)) d =
        .error ErrMaxExecutionDepth := by
  intro n
  induction n with
  | zero => intro k d h h'; omega
  | succ n ih =>
    intro k d h h'
    have hk : n + 1 + k = (n + k) + 1 := by omega
    have hchain : fieldChain (n + 1) = .field "A" :: fieldChain n := by
      simp [fieldChain, List.replicate_succ]
    rw [hk, hchain]
    simp only [evalStepsWith]
    by_cases hd : maxExecutionDepth < d + 1
    · rw [if_pos hd]
    · rw [if_neg hd]
      simp only [nestedStruct, evalField, unwrap, lookupField, Except.bind]
      simpa [Except.bind] using ih k (d + 1) (by omega) (by omega)

lemma evaluate_unfold (p : Program) (ctx : Value) :
    evaluate p ctx =
      match evalExprWith (evalAtFuel (maxExecutionDepth + 1) ctx) ctx p 0 with
      | .ok (v, _) => .ok v
      | .error e => .error e := rfl

/-- C1: every Field, Index or Call step increments the per-evaluation depth
counter (the ok-cases end at counter `d + n`, a single call step ends at
`d + 1`); an index- or field-chain of at most `maxExecutionDepth` steps
succeeds while one step beyond fails with the distinguished
`MaxExecutionDepth` sentinel, which is distinct from every ordinary
execution error; the ten- and eleven-step test expressions compile to the
corresponding chains. -/
theorem C1_depth_guard :
    (∀ (ev : Program → Nat → Except EvalError (Value × Nat)) n k d,
      d + n ≤ maxExecutionDepth →
        evalStepsWith ev (idxChain n) (nestedSeq (n + k)) d =
          .ok (nestedSeq k, d + n)) ∧
    (∀ (ev : Program → Nat → Except EvalError (Value × Nat)) n k d,
      d + n ≤ maxExecutionDepth →
        evalStepsWith ev (fieldChain n) (nestedStruct (n + k)) d =
          .ok (nestedStruct k, d + n)) ∧
    (∀ (ev : Program → Nat → Except EvalError (Value × Nat)) d (ret : Value),
      d + 1 ≤ maxExecutionDepth →
        evalStepsWith ev [.call []] (.vFuncConst [] ret none) d =
          .ok (ret, d + 1)) ∧
    (∀ n k, n ≤ maxExecutionDepth →
      evaluate (idxProgram n) (nestedSeq (n + k)) = .ok (nestedSeq k)) ∧
    (∀ k, evaluate (idxProgram (maxExecutionDepth + 1))
        (nestedSeq (maxExecutionDepth + 1 + k)) = .error ErrMaxExecutionDepth) ∧
    (∀ n k, n ≤ maxExecutionDepth →
      evaluate (fieldProgram n) (nestedStruct (n + k)) = .ok (nestedStruct k)) ∧
    (∀ k, evaluate (fieldProgram (maxExecutionDepth + 1))
        (nestedStruct (maxExecutionDepth + 1 + k)) = .error ErrMaxExecutionDepth) ∧
    compile "#[0][0][0][0][0][0][0][0][0][0]" = .ok (idxProgram maxExecutionDepth) ∧
    compile "#[0][0][0][0][0][0][0][0][0][0][0]" =
      .ok (idxProgram (maxExecutionDepth + 1)) ∧
    (∀ msg, ErrMaxExecutionDepth ≠ EvalError.execError msg) := by
  refine ⟨fun ev => evalStepsWith_idxChain_ok ev,
          fun ev => evalStepsWith_fieldChain_ok ev,
          ?_, ?_, ?_, ?_, ?_, ?_, ?_, ?_⟩
  · intro ev d ret h
    simp only [evalStepsWith]
    rw [if_neg (Nat.not_lt.mpr h)]
    simp [evalArgsWith, evalCall, unwrap, argsMatch, Bind.bind, Except.bind,
      evalStepsWith]
  · intro n k h
    rw [evaluate_unfold]
    simp only [idxProgram, evalExprWith, evalRoot]
    rw [evalStepsWith_idxChain_ok _ n k 0 (by omega)]
    rfl
  · intro k
    rw [evaluate_unfold]
    simp only [idxProgram, evalExprWith, evalRoot]
    rw [evalStepsWith_idxChain_max _ (maxExecutionDepth + 1) k 0 (by omega) (by omega)]
    rfl
  · intro n k h
    rw [evaluate_unfold]
    simp only [fieldProgram, evalExprWith, evalRoot]
    rw [evalStepsWith_fieldChain_ok _ n k 0 (by omega)]
    rfl
  · intro k
    rw [evaluate_unfold]
    simp only [fieldProgram, evalExprWith, evalRoot]
    rw [evalStepsWith_fieldChain_max _ (maxExecutionDepth + 1) k 0 (by omega) (by omega)]
    rfl
  · rfl
  · rfl
  · intro msg h
    exact EvalError.noConfusion h

/-- C1 witness: the ten-step index chain on the test's eleven-deep nested
sequence succeeds with `[]int{33}`, and a ten-step field chain succeeds,
at concrete inputs. -/
theorem C1_depth_guard_witness :
    evaluate (idxProgram 10) (nestedSeq 11) = .ok (nestedSeq 1) ∧
    evaluate (fieldProgram 10) (nestedStruct 10) = .ok (nestedStruct 0) :=
  ⟨C1_depth_guard.2.2.2.1 10 1 (by decide),
   C1_depth_guard.2.2.2.2.2.1 10 0 (by decide)⟩

/-- C2: an Index step on a keyed container whose literal's type is not
assignable to the declared key type is an execution error; a well-typed
but absent key yields the absent value with no error; an out-of-range
index on a sequence is an execution error; and indexing a value that is
neither a sequence nor a keyed container (nor indirection over one) is an
execution error. -/
theorem C2_index_step :
    (∀ (keyTy : Ty) entries lit, keyTy ≠ Ty.tIface → litTy lit ≠ keyTy →
      evalIndex (.vMap keyTy entries) lit =
        .error (.execError "wrong map key type")) ∧
    (∀ (keyTy : Ty) entries lit, (keyTy = Ty.tIface ∨ litTy lit = keyTy) →
      mapLookup entries (litValue lit) = none →
      evalIndex (.vMap keyTy entries) lit = .ok .vNil) ∧
    (∀ (elems : List Value) n, elems.length ≤ n →
      evalIndex (.vSeq elems) (.int n) =
        .error (.execError "sequence index out of range")) ∧
    (∀ (v : Value) lit, typeOf v ≠ .tSeq → typeOf v ≠ .tMap → typeOf v ≠ .tPtr →
      ∃ msg, evalIndex v lit = .error (.execError msg)) := by
  refine ⟨?_, ?_, ?_, ?_⟩
  · intro keyTy entries lit h1 h2
    simp [evalIndex, unwrap, Bind.bind, Except.bind, h1, h2]
  · intro keyTy entries lit h1 h2
    rcases h1 with h1 | h1 <;>
      simp [evalIndex, unwrap, Bind.bind, Except.bind, h1, h2]
  · intro elems n h
    simp [evalIndex, unwrap, Bind.bind, Except.bind, List.getElem?_eq_none h]
  · intro v lit h1 h2 h3
    cases v <;> simp [typeOf] at h1 h2 h3 ⊢ <;>
      exact ⟨_, rfl⟩

/-- C2 witness: the test suite's concrete index cases: a missing key on a
`map[string]uint16` yields the absent value without error, a string key on
a `map[int]string` is an execution error, index 5 on a three-element
sequence is an execution error, and indexing the integer 27 is an
execution error. -/
theorem C2_index_step_witness :
    evalIndex (.vMap .tString []) (.str "i dont exist") = .ok .vNil ∧
    evalIndex (.vMap .tInt [(.vInt 1, .vStr "One")]) (.str "One") =
      .error (.execError "wrong map key type") ∧
    evalIndex (.vSeq [.vInt 1, .vInt 2, .vInt 3]) (.int 5) =
      .error (.execError "sequence index out of range") ∧
    (∃ msg, evalIndex (.vInt 27) (.int 1) = .error (.execError msg)) :=
  ⟨C2_index_step.2.1 _ _ _ (Or.inr rfl) rfl,
   C2_index_step.1 _ _ _ (by decide) (by decide),
   C2_index_step.2.2.1 _ _ (by decide),
   C2_index_step.2.2.2 _ _ (by decide) (by decide) (by decide)⟩

/-- C3: a Call step evaluates its argument sub-expressions with the
recursive evaluator `ev` closed over the original context value — the
running value `cur` feeds only the invocation itself (first two
conjuncts); concretely, `#.A(#.B)` applied to the identity-on-int context
returns 23 (arguments resolved against the original context, not the
running callable), an argument type mismatch and an argument count
mismatch are execution errors, and a callable's non-nil trailing error
becomes the evaluation's error, short-circuiting the rest of the chain
(`.B` is never looked up). -/
theorem C3_call_step :
    (∀ fuel ctx e d,
      evalAtFuel (fuel + 1) ctx e d = evalExprWith (evalAtFuel fuel ctx) ctx e d) ∧
    (∀ (ev : Program → Nat → Except EvalError (Value × Nat)) args rest cur d,
      d + 1 ≤ maxExecutionDepth →
        evalStepsWith ev (.call args :: rest) cur d = do
          let (vals, d') ← evalArgsWith ev args (d + 1)
          let v ← evalCall cur vals
          evalStepsWith ev rest v d') ∧
    compile "#.A(#.B)" =
      .ok (.ctx, [.field "A", .call [(.ctx, [.field "B"], none)]], none) ∧
    evaluate (.ctx, [.field "A", .call [(.ctx, [.field "B"], none)]], none)
      ctxIdFn = .ok (.vInt 23) ∧
    evaluate (.ctx, [.field "A", .call [(.ctx, [.field "B"], none)]], none)
      ctxBadArg = .error (.execError "unexpected argument type or count") ∧
    evaluate (.ctx, [.field "A", .call [(.ctx, [.field "B"], none)]], none)
      ctxArity = .error (.execError "unexpected argument type or count") ∧
    compile "#.A().B" = .ok (.ctx, [.field "A", .call [], .field "B"], none) ∧
    evaluate (.ctx, [.field "A", .call [], .field "B"], none) ctxErrFn =
      .error (.execError "error") := by
  refine ⟨fun fuel ctx e d => rfl, ?_, rfl, rfl, rfl, rfl, rfl, rfl⟩
  intro ev args rest cur d h
  simp only [evalStepsWith]
  rw [if_neg (Nat.not_lt.mpr h)]

/-- C3 witness: the call-step unfolding applied at a concrete input: a
single argumentless call of a constant function at depth 0. -/
theorem C3_call_step_witness :
    evalAtFuel 1 Value.vNil ((.ctx, [], none) : Program) 0 =
      evalExprWith (evalAtFuel 0 Value.vNil) Value.vNil (.ctx, [], none) 0 ∧
    evalStepsWith (evalAtFuel 0 Value.vNil) [.call []]
        (.vFuncConst [] (.vInt 5) none) 0 =
      (do
        let (vals, d') ← evalArgsWith (evalAtFuel 0 Value.vNil) [] (0 + 1)
        let v ← evalCall (.vFuncConst [] (.vInt 5) none) vals
        evalStepsWith (evalAtFuel 0 Value.vNil) [] v d') :=
  ⟨C3_call_step.1 0 Value.vNil (.ctx, [], none) 0,
   C3_call_step.2.1 (evalAtFuel 0 Value.vNil) [] []
     (.vFuncConst [] (.vInt 5) none) 0 (by decide)⟩

/-- C4: a Field step whose name matches no data member resolves a
zero-argument method respecting value- vs reference-receiver semantics: a
method present only in the reference (pointer) form's behaviour set is
invoked through the reference form, its first return value becoming the
result, but is not visible through the value form, which fails with an
execution error; concretely, `#.MyMethodField2` succeeds on
`&contextWithMethods{}` and fails on `contextWithMethods{}`. -/
theorem C4_method_receiver :
    (∀ fields vms pms name (ret : Value),
      lookupField fields name = none →
      lookupMeth vms name = none →
      lookupMeth pms name = some (ret, none) →
        evalField (.vPtr (some (.vStruct fields vms pms))) name = .ok ret ∧
        evalField (.vStruct fields vms pms) name =
          .error (.execError ("no field nor method " ++ name))) ∧
    compile "#.MyMethodField2" = .ok (.ctx, [.field "MyMethodField2"], none) ∧
    evaluate (.ctx, [.field "MyMethodField2"], none) (.vPtr (some cwMethods)) =
      .ok (.vStr "Sqreen") ∧
    evaluate (.ctx, [.field "MyMethodField2"], none) cwMethods =
      .error (.execError "no field nor method MyMethodField2") := by
  refine ⟨?_, rfl, rfl, rfl⟩
  intro fields vms pms name ret h1 h2 h3
  constructor
  · simp [evalField, unwrap, Bind.bind, Except.bind, h1, h2, h3]
  · simp [evalField, unwrap, Bind.bind, Except.bind, h1, h2]

/-- C4 witness: the receiver-semantics conjunct applied at the test
suite's `contextWithMethods`, whose `MyMethodField2` is defined only on
the pointer form. -/
theorem C4_method_receiver_witness :
    evalField (.vPtr (some cwMethods)) "MyMethodField2" = .ok (.vStr "Sqreen") ∧
    evalField cwMethods "MyMethodField2" =
      .error (.execError "no field nor method MyMethodField2") :=
  C4_method_receiver.1 [] _ _ "MyMethodField2" _ rfl rfl rfl

/-- C5: the expression `#` compiles to the root-only program, and
evaluating it returns the context value unchanged with no error, for every
context value. -/
theorem C5_root_identity :
    compile "#" = .ok (Root.ctx, [], none) ∧
    ∀ X : Value, evaluate (Root.ctx, [], none) X = .ok X :=
  ⟨rfl, fun _ => rfl⟩

/-- C6: each of the eight malformed expressions fails to compile with a
compile error, so no Program exists for them and evaluation is never
attempted. -/
theorem C6_compile_errors :
    compile "" = .error .emptyExpression ∧
    compile "." = .error .synError ∧
    compile "#." = .error .synError ∧
    compile "#..B" = .error .synError ∧
    compile "#.A[0" = .error .unmatchedBracket ∧
    compile "#.A[]" = .error .invalidBracketContents ∧
    compile "#.A['One" = .error .unterminatedStringLiteral ∧
    compile "#.A | " = .error .invalidPipe :=
  ⟨rfl, rfl, rfl, rfl, rfl, rfl, rfl, rfl⟩

/-- C7: `flat_values` and `flat_keys` over the test suite's composites
(nested sequences, maps, pointers, structured members) return, as an
unordered collection, exactly the reachable terminal values respectively
the keys/member names, with nil sequence elements contributing nothing and
a composite (pointer) map key emitted as a terminal result rather than
recursed into. -/
theorem C7_flat_transforms :
    compile "# | flat_values" = .ok (.ctx, [], some .flatValues) ∧
    compile "# | flat_keys" = .ok (.ctx, [], some .flatKeys) ∧
    compile "#.B | flat_values" = .ok (.ctx, [.field "B"], some .flatValues) ∧
    (∃ l, evaluate (.ctx, [], some .flatValues) ctxNilElem = .ok (.vSeq l) ∧
      l.Perm [.vStr "hello"]) ∧
    (∃ l, evaluate (.ctx, [], some .flatValues) ctxComposite = .ok (.vSeq l) ∧
      l.Perm [.vInt 33, .vInt 1, .vInt 2, .vStr "Sqreen", .vInt 1, .vStr "Two",
              .vInt 27, .vInt 28]) ∧
    (∃ l, evaluate (.ctx, [], some .flatKeys) ctxComposite = .ok (.vSeq l) ∧
      l.Perm [.vStr "A", .vStr "B", .vStr "C", .vStr "D", .vStr "E",
              .vStr "One", .vInt 2, .vStr "Three"]) ∧
    (∃ l, evaluate (.ctx, [.field "B"], some .flatValues) ctxComposite =
        .ok (.vSeq l) ∧
      l.Perm [.vInt 1, .vInt 2, .vStr "Sqreen", .vInt 1, .vStr "Two",
              .vInt 27, .vInt 28]) ∧
    (∃ l, evaluate (.ctx, [], some .flatKeys) ctxPtrKeys = .ok (.vSeq l) ∧
      l.Perm [.vPtr (some (.vStr "")), .vPtr none]) :=
  ⟨rfl, rfl, rfl,
   ⟨_, rfl, List.Perm.refl _⟩,
   ⟨_, rfl, List.Perm.refl _⟩,
   ⟨_, rfl, List.Perm.refl _⟩,
   ⟨_, rfl, List.Perm.refl _⟩,
   ⟨_, rfl, List.Perm.refl _⟩⟩

end BindingAccessor

namespace Callback

/-! ### Lemmas about the add-security-headers callback -/

lemma headerSetK_ne_nil (h : Header) (k : String) (vs : List String) :
    headerSetK h k vs ≠ [] := by
  cases h with
  | nil => simp [headerSetK]
  | cons a t =>
    obtain ⟨k', vs'⟩ := a
    simp only [headerSetK]
    split <;> simp

lemma buildHeaders_error_iff :
    ∀ (l : List CfgElem) (h0 : Header),
      (∃ msg, buildHeaders h0 l = .error msg) ↔ ∃ e ∈ l, badCfgElem e := by
  intro l
  induction l with
  | nil => intro h0; simp [buildHeaders]
  | cons e rest ih =>
    intro h0
    cases e with
    | notStringSlice => simp [buildHeaders, badCfgElem]
    | strs kv =>
      cases kv with
      | nil => simp [buildHeaders, badCfgElem]
      | cons k t =>
        cases t with
        | nil => simp [buildHeaders, badCfgElem]
        | cons v t2 =>
          cases t2 with
          | nil => simp [buildHeaders, badCfgElem, ih]
          | cons w t3 => simp [buildHeaders, badCfgElem]

lemma buildHeaders_ok_nil :
    ∀ (l : List CfgElem) (h0 h : Header),
      buildHeaders h0 l = .ok h → h = [] → h0 = [] ∧ l = [] := by
  intro l
  induction l with
  | nil =>
    intro h0 h hb hnil
    simp [buildHeaders] at hb
    exact ⟨hb.symm ▸ hnil, rfl⟩
  | cons e rest ih =>
    intro h0 h hb hnil
    cases e with
    | notStringSlice => simp [buildHeaders] at hb
    | strs kv =>
      cases kv with
      | nil => simp [buildHeaders] at hb
      | cons k t =>
        cases t with
        | nil => simp [buildHeaders] at hb
        | cons v t2 =>
          cases t2 with
          | nil =>
            simp only [buildHeaders] at hb
            exact absurd ((ih _ _ hb hnil).1) (headerSetK_ne_nil _ _ _)
          | cons w t3 => simp [buildHeaders] at hb

/-- C9: `NewAddSecurityHeadersCallback` returns a nil callback and a
non-nil error exactly when the configuration data is not a
`[]interface{}`, or some element is not a `[]string` of exactly two
values, or the list is empty; every other configuration yields a non-nil
prolog callback and a nil error; and for data passing the per-element
checks the built header set is empty exactly when the list is empty. -/
theorem C9_config_validation :
    (∀ cfg : CfgData,
      ((∃ msg, NewAddSecurityHeadersCallback cfg = .error msg) ↔
        errorConfig cfg) ∧
      (¬ errorConfig cfg →
        ∃ h, NewAddSecurityHeadersCallback cfg = .ok h)) ∧
    (∀ (l : List CfgElem) (h : Header),
      buildHeaders [] l = .ok h → (h = [] ↔ l = [])) := by
  have unfoldList : ∀ l : List CfgElem,
      NewAddSecurityHeadersCallback (.list l) =
        Except.bind (buildHeaders [] l) (fun headers =>
          if headers.length = 0 then
            .error "unexpected empty list of headers to add"
          else .ok headers) := fun l => rfl
  have main : ∀ cfg : CfgData,
      (∃ msg, NewAddSecurityHeadersCallback cfg = .error msg) ↔ errorConfig cfg := by
    intro cfg
    cases cfg with
    | notList => simp [NewAddSecurityHeadersCallback, errorConfig]
    | list l =>
      rw [unfoldList]
      cases hres : buildHeaders [] l with
      | error msg =>
        simp only [Except.bind, errorConfig]
        constructor
        · intro _
          exact Or.inl ((buildHeaders_error_iff l []).mp ⟨msg, hres⟩)
        · intro _
          exact ⟨msg, rfl⟩
      | ok h =>
        simp only [Except.bind, errorConfig]
        by_cases hlen : h.length = 0
        · rw [if_pos hlen]
          have hnil : h = [] := List.length_eq_zero.mp hlen
          have hl : l = [] := (buildHeaders_ok_nil l [] h hres hnil).2
          simp [hl]
        · rw [if_neg hlen]
          constructor
          · intro ⟨msg, hmsg⟩
            exact absurd hmsg (by simp)
          · intro hcond
            rcases hcond with hbad | hl
            · obtain ⟨msg, hmsg⟩ := (buildHeaders_error_iff l []).mpr hbad
              rw [hmsg] at hres
              exact absurd hres (by simp)
            · subst hl
              simp only [buildHeaders, Except.ok.injEq] at hres
              exact absurd (by simp [← hres]) hlen
  constructor
  · intro cfg
    refine ⟨main cfg, fun hn => ?_⟩
    cases hres : NewAddSecurityHeadersCallback cfg with
    | error msg => exact absurd ((main cfg).mp ⟨msg, hres⟩) hn
    | ok h => exact ⟨h, rfl⟩
  · intro l h hb
    constructor
    · intro hnil
      exact (buildHeaders_ok_nil l [] h hb hnil).2
    · intro hl
      subst hl
      simp only [buildHeaders, Except.ok.injEq] at hb
      exact hb.symm

/-- C9 witness: a non-list configuration yields an error, and the
configuration `[["X-Frame-Options", "deny"]]` yields a callback with no
error. -/
theorem C9_config_validation_witness :
    (∃ msg, NewAddSecurityHeadersCallback .notList = .error msg) ∧
    (∃ h, NewAddSecurityHeadersCallback
        (.list [.strs ["X-Frame-Options", "deny"]]) = .ok h) :=
  ⟨(C9_config_validation.1 .notList).1.mpr trivial,
   (C9_config_validation.1 _).2 (by simp [errorConfig, badCfgElem])⟩

lemma headerLookup_setK_self :
    ∀ (h : Header) (k : String) (vs : List String),
      headerLookup (headerSetK h k vs) k = some vs := by
  intro h k vs
  induction h with
  | nil => simp [headerSetK, headerLookup]
  | cons a t ih =>
    obtain ⟨k', vs'⟩ := a
    by_cases hk : k' = k
    · simp [headerSetK, hk, headerLookup]
    · simp [headerSetK, hk, headerLookup, ih]

lemma headerLookup_setK_other :
    ∀ (h : Header) (k : String) (vs : List String) (k' : String), k' ≠ k →
      headerLookup (headerSetK h k vs) k' = headerLookup h k' := by
  intro h k vs k' hne
  have hkk : ¬(k = k') := fun heq => hne heq.symm
  induction h with
  | nil => simp [headerSetK, headerLookup, hkk]
  | cons a t ih =>
    obtain ⟨k0, vs0⟩ := a
    by_cases hk : k0 = k
    · subst hk
      simp [headerSetK, headerLookup, hkk]
    · simp only [headerSetK, if_neg hk, headerLookup, ih]

lemma foldl_setK_lookup_none :
    ∀ (hs resp : Header) (k : String), headerLookup hs k = none →
      headerLookup (hs.foldl (fun r kv => headerSetK r kv.1 kv.2) resp) k =
        headerLookup resp k := by
  intro hs
  induction hs with
  | nil => intro resp k _; rfl
  | cons a t ih =>
    intro resp k hl
    obtain ⟨k0, v0⟩ := a
    by_cases hk : k0 = k
    · simp [headerLookup, hk] at hl
    · simp only [headerLookup, if_neg hk] at hl
      rw [List.foldl_cons, ih _ k hl,
        headerLookup_setK_other _ _ _ _ (fun heq => hk heq.symm)]

lemma headerLookup_eq_none_of_not_mem :
    ∀ (hs : Header) (k : String), k ∉ hs.map Prod.fst → headerLookup hs k = none := by
  intro hs
  induction hs with
  | nil => intro k _; rfl
  | cons a t ih =>
    intro k hk
    obtain ⟨k0, v0⟩ := a
    simp only [List.map_cons, List.mem_cons] at hk
    push_neg at hk
    simp only [headerLookup, if_neg (Ne.symm hk.1)]
    exact ih k hk.2

lemma foldl_setK_lookup_some :
    ∀ (hs resp : Header) (k : String) (vs : List String),
      (hs.map Prod.fst).Nodup → headerLookup hs k = some vs →
      headerLookup (hs.foldl (fun r kv => headerSetK r kv.1 kv.2) resp) k =
        some vs := by
  intro hs
  induction hs with
  | nil => intro resp k vs _ hl; simp [headerLookup] at hl
  | cons a t ih =>
    intro resp k vs hnd hl
    obtain ⟨k0, v0⟩ := a
    simp only [List.map_cons, List.nodup_cons] at hnd
    by_cases hk : k0 = k
    · subst hk
      simp only [headerLookup, if_pos rfl] at hl
      have ht : headerLookup t k0 = none :=
        headerLookup_eq_none_of_not_mem t k0 hnd.1
      rw [List.foldl_cons, foldl_setK_lookup_none t _ k0 ht,
        headerLookup_setK_self]
      exact hl
    · simp only [headerLookup, if_neg hk] at hl
      rw [List.foldl_cons]
      exact ih _ k vs hnd.2 hl

lemma mem_keys_setK :
    ∀ (h : Header) (k : String) (vs : List String) (x : String),
      x ∈ (headerSetK h k vs).map Prod.fst → x ∈ h.map Prod.fst ∨ x = k := by
  intro h k vs x
  induction h with
  | nil => simp [headerSetK]
  | cons a t ih =>
    obtain ⟨k0, v0⟩ := a
    by_cases hk : k0 = k
    · subst hk
      simp [headerSetK]
      tauto
    · simp only [headerSetK, if_neg hk, List.map_cons, List.mem_cons]
      intro hmem
      rcases hmem with hx | hx
      · exact Or.inl (Or.inl hx)
      · rcases ih hx with hx' | hx'
        · exact Or.inl (Or.inr hx')
        · exact Or.inr hx'

lemma nodup_keys_setK :
    ∀ (h : Header) (k : String) (vs : List String),
      (h.map Prod.fst).Nodup → ((headerSetK h k vs).map Prod.fst).Nodup := by
  intro h k vs
  induction h with
  | nil => simp [headerSetK]
  | cons a t ih =>
    obtain ⟨k0, v0⟩ := a
    intro hnd
    simp only [List.map_cons, List.nodup_cons] at hnd
    by_cases hk : k0 = k
    · subst hk
      simpa [headerSetK, List.nodup_cons] using hnd
    · simp only [headerSetK, if_neg hk, List.map_cons, List.nodup_cons]
      refine ⟨fun hmem => ?_, ih hnd.2⟩
      rcases mem_keys_setK t k vs k0 hmem with hx | hx
      · exact hnd.1 hx
      · exact hk hx

lemma nodup_keys_buildHeaders :
    ∀ (l : List CfgElem) (h0 h : Header),
      buildHeaders h0 l = .ok h → (h0.map Prod.fst).Nodup →
        (h.map Prod.fst).Nodup := by
  intro l
  induction l with
  | nil =>
    intro h0 h hb hnd
    simp only [buildHeaders, Except.ok.injEq] at hb
    exact hb ▸ hnd
  | cons e rest ih =>
    intro h0 h hb hnd
    cases e with
    | notStringSlice => simp [buildHeaders] at hb
    | strs kv =>
      cases kv with
      | nil => simp [buildHeaders] at hb
      | cons k t =>
        cases t with
        | nil => simp [buildHeaders] at hb
        | cons v t2 =>
          cases t2 with
          | nil =>
            simp only [buildHeaders] at hb
            exact ih _ h hb (nodup_keys_setK h0 _ [v] hnd)
          | cons w t3 => simp [buildHeaders] at hb

/-- C10: the prolog callback produced by `newAddHeadersPrologCallback`
writes exactly the configured header keys into the response writer's
header map — a configured key maps to its configured values, overwriting
any existing values — leaves every other response-header key unchanged,
and always returns a nil epilog callback and a nil error; the
distinct-keys hypothesis holds for every header map
`NewAddSecurityHeadersCallback` builds, since `http.Header.Set` replaces
bindings. -/
theorem C10_prolog_effect :
    (∀ (headers resp : Header), (headers.map Prod.fst).Nodup →
      (∀ k vs, headerLookup headers k = some vs →
        headerLookup (newAddHeadersPrologCallback headers resp).1 k = some vs) ∧
      (∀ k, headerLookup headers k = none →
        headerLookup (newAddHeadersPrologCallback headers resp).1 k =
          headerLookup resp k) ∧
      (newAddHeadersPrologCallback headers resp).2.1 = none ∧
      (newAddHeadersPrologCallback headers resp).2.2 = none) ∧
    (∀ (cfg : CfgData) (h : Header), NewAddSecurityHeadersCallback cfg = .ok h →
      (h.map Prod.fst).Nodup) := by
  constructor
  · intro headers resp hnd
    exact ⟨fun k vs hl => foldl_setK_lookup_some headers resp k vs hnd hl,
           fun k hl => foldl_setK_lookup_none headers resp k hl,
           rfl, rfl⟩
  · intro cfg h hres
    cases cfg with
    | notList => simp [NewAddSecurityHeadersCallback] at hres
    | list l =>
      have unfoldList :
          NewAddSecurityHeadersCallback (.list l) =
            Except.bind (buildHeaders [] l) (fun headers =>
              if headers.length = 0 then
                .error "unexpected empty list of headers to add"
              else .ok headers) := rfl
      rw [unfoldList] at hres
      cases hb : buildHeaders [] l with
      | error msg => rw [hb] at hres; exact absurd hres (by simp [Except.bind])
      | ok h' =>
        rw [hb] at hres
        simp only [Except.bind] at hres
        by_cases hlen : h'.length = 0
        · rw [if_pos hlen] at hres
          exact absurd hres (by simp)
        · rw [if_neg hlen] at hres
          simp only [Except.ok.injEq] at hres
          exact hres ▸ nodup_keys_buildHeaders l [] h' hb (by simp)

/-- C10 witness: one configured header overwrites its pre-existing
response value, an unrelated response key is unchanged, and the callback
returns a nil epilog and a nil error. -/
theorem C10_prolog_effect_witness :
    headerLookup (newAddHeadersPrologCallback [("X-Frame-Options", ["deny"])]
        [("X-Frame-Options", ["old"]), ("Content-Type", ["text/html"])]).1
      "X-Frame-Options" = some ["deny"] ∧
    headerLookup (newAddHeadersPrologCallback [("X-Frame-Options", ["deny"])]
        [("X-Frame-Options", ["old"]), ("Content-Type", ["text/html"])]).1
      "Content-Type" = some ["text/html"] ∧
    (newAddHeadersPrologCallback [("X-Frame-Options", ["deny"])]
        [("X-Frame-Options", ["old"]), ("Content-Type", ["text/html"])]).2.1 =
      none ∧
    (newAddHeadersPrologCallback [("X-Frame-Options", ["deny"])]
        [("X-Frame-Options", ["old"]), ("Content-Type", ["text/html"])]).2.2 =
      none := by
  have h := C10_prolog_effect.1 [("X-Frame-Options", ["deny"])]
    [("X-Frame-Options", ["old"]), ("Content-Type", ["text/html"])] (by simp)
  exact ⟨h.1 _ _ rfl, h.2.1 _ rfl, h.2.2.1, h.2.2.2⟩

end Callback
